import Mathlib

/-!
# fileTree.cpp: directory tree builder

A shallow embedding of `backend/src/bin/fileTree.cpp` (functions `shouldIgnore`,
`buildTree`, `main`) together with the properties of the tree it produces.

Modelling choices.

* A path is the string `fs::path::string()` returns; `filename` is the part after
  the last separator `/`.
* The file system is a value `FileSystem`.  `fs_exists` is the throwing overload of
  `fs::exists`: it answers `true` or `false`, or raises when the status query fails
  (name too long, symbolic link loop, permission).  `directory_iterator` gives, for a
  path, the entries the iteration yields in order, followed by the `what()` of the
  exception that ends the iteration, if any.  An entry carries the outcome of the
  throwing overload of `is_directory()`.  The listing is an arbitrary function of the
  path, so cyclic structures are included.
* Exceptions: a call of `buildTree` either returns a value or raises.  Inside the
  `try` block the iterator, `is_directory()` and the recursive call can raise; each
  ends the loop and is absorbed by the handler (`catchError`).  `fs::exists` at the
  head of `buildTree` is outside the `try` block, so its exception leaves the call and
  is caught one level up, by the handler of the caller.  `main` has no handler: an
  exception there ends the process through `std::terminate`.
* `nlohmann::json` values are the inductive type `Json`; an object keeps its members
  sorted by key, as the `std::map` inside the library does.  `dump` is the compact
  serializer; the escaping of a string, which raises on invalid UTF-8, is a parameter.
* `int depth` is an `Int`; `depth + 1` is only evaluated when `depth ≤ MAX_DEPTH`,
  so no machine overflow can occur.
* Effects are recorded as a list of `Event`s in program order: entry into
  `buildTree`, the `fs::exists` query, the construction of the directory iterator,
  every line written to `std::cerr`, and the abort of the process.
* The recursion of `buildTree` is run with a call budget (`buildTreeFuel`); the budget
  counts nested calls, and running out of it is the distinct result `none`.
-/

namespace FileTree

/-! ## JSON values -/

/-- Values of `nlohmann::json` as far as the program builds them. -/
inductive Json where
  | null
  | string (s : String)
  | number (n : Int)
  | array (elems : List Json)
  | object (members : List (String × Json))

namespace Json

/-- Insertion into the key-ordered member list of an object: a new key is placed in
order, an existing key has its value replaced. -/
def insertMember (key : String) (v : Json) : List (String × Json) → List (String × Json)
  | [] => [(key, v)]
  | (k, w) :: rest =>
    if key.data < k.data then (key, v) :: (k, w) :: rest
    else if key = k then (key, v) :: rest
    else (k, w) :: insertMember key v rest

/-- Member lookup by key. -/
def lookupMember (key : String) : List (String × Json) → Option Json
  | [] => none
  | (k, w) :: rest => if key = k then some w else lookupMember key rest

/-- The assignment `j[key] = v`: a null value becomes an object first. On a value of
another kind the library throws; the program never does that, and the value is left
as it is here. -/
def set (j : Json) (key : String) (v : Json) : Json :=
  match j with
  | null => object [(key, v)]
  | object members => object (insertMember key v members)
  | other => other

/-- The value stored under `key`, when `j` is an object that has the key. -/
def get? (j : Json) (key : String) : Option Json :=
  match j with
  | object members => lookupMember key members
  | _ => none

mutual
/-- The compact serialization `json::dump()`: no white space, members in key order.
`escape` turns the content of a string into its escaped form and raises on a string
that is not valid UTF-8. -/
def dump (escape : String → Except String String) : Json → Except String String
  | null => Except.ok "null"
  | string s =>
    match escape s with
    | Except.error what => Except.error what
    | Except.ok text => Except.ok ("\"" ++ text ++ "\"")
  | number n => Except.ok (toString n)
  | array elems =>
    match dumpElems escape elems with
    | Except.error what => Except.error what
    | Except.ok texts => Except.ok ("[" ++ ",".intercalate texts ++ "]")
  | object members =>
    match dumpMembers escape members with
    | Except.error what => Except.error what
    | Except.ok texts => Except.ok ("\x7b" ++ ",".intercalate texts ++ "\x7d")
/-- The serializations of the elements of an array. -/
def dumpElems (escape : String → Except String String) :
    List Json → Except String (List String)
  | [] => Except.ok []
  | v :: rest =>
    match dump escape v with
    | Except.error what => Except.error what
    | Except.ok text =>
      match dumpElems escape rest with
      | Except.error what => Except.error what
      | Except.ok texts => Except.ok (text :: texts)
/-- The serializations of the members of an object. -/
def dumpMembers (escape : String → Except String String) :
    List (String × Json) → Except String (List String)
  | [] => Except.ok []
  | (k, v) :: rest =>
    match escape k with
    | Except.error what => Except.error what
    | Except.ok key =>
      match dump escape v with
      | Except.error what => Except.error what
      | Except.ok text =>
        match dumpMembers escape rest with
        | Except.error what => Except.error what
        | Except.ok texts => Except.ok (("\"" ++ key ++ "\":" ++ text) :: texts)
end

end Json

/-! ## File system -/

/-- One `fs::directory_entry` as the loop uses it: `entry.path().string()` and the
outcome of `entry.is_directory()`, an answer or the message of the exception raised. -/
structure DirEntry where
  path : String
  is_directory : Except String Bool

/-- What iterating a directory gives: the entries yielded, in order, and the message
of the exception that ended the iteration, if one was raised. -/
structure Listing where
  entries : List DirEntry
  error : Option String

/-- The file system as the program observes it. -/
structure FileSystem where
  fs_exists : String → Except String Bool
  directory_iterator : String → Listing

/-- The base name `fs::path::filename()`: the characters after the last `/`. -/
def filename (path : String) : String :=
  String.mk (path.data.reverse.takeWhile (fun c => c != '/')).reverse

/-! ## Effects -/

/-- Observable steps of a run, in program order. -/
inductive Event where
  | call (path : String) (depth : Int)
  | stat (path : String)
  | opendir (path : String) (depth : Int)
  | cerr (line : String)
  | abort (what : String)
  deriving DecidableEq

/-! ## The program -/

/-- Line 10: `const int MAX_DEPTH = 5`. -/
def MAX_DEPTH : Int := 5

/-- Lines 13-15: the static ignore list. -/
def ignoreList : List String :=
  ["node_modules", ".git", "dist", "build", ".next", "coverage", ".cache"]

/-- Lines 12-17: `std::find` over the ignore list. -/
def shouldIgnore (name : String) : Bool :=
  ignoreList.contains name

/-- Lines 29-32: the members every node gets. -/
def baseNode (entry : DirEntry) (depth : Int) : Json :=
  ((Json.null.set "name" (Json.string (filename entry.path))).set
    "path" (Json.string entry.path)).set "depth" (Json.number depth)

/-- Lines 35-36: the node of a directory entry, given the result of the recursive call. -/
def folderNode (entry : DirEntry) (depth : Int) (children : Json) : Json :=
  ((baseNode entry depth).set "type" (Json.string "folder")).set "children" children

/-- Line 38: the node of any other entry. -/
def fileNode (entry : DirEntry) (depth : Int) : Json :=
  (baseNode entry depth).set "type" (Json.string "file")

/-- Lines 25-42: the body of the `for` loop run over the entries the iterator yields.
The state is the array `children` built so far and the events so far; `recur` is the
recursive call of `buildTree`. The result carries, third, the exception that ended the
loop early, if one was raised: by `is_directory()` (line 34) or by the recursive call
(line 36). The entry at which it was raised gets no node, nor do the entries after it. -/
def forEachEntry (recur : String → Int → Option (Except String Json × List Event))
    (depth : Int) :
    List DirEntry → List Json × List Event → Option (List Json × List Event × Option String)
  | [], (children, events) => some (children, events, none)
  | entry :: rest, (children, events) =>
    if shouldIgnore (filename entry.path) then
      forEachEntry recur depth rest (children, events)
    else
      match entry.is_directory with
      | Except.error what => some (children, events, some what)
      | Except.ok true =>
        match recur entry.path (depth + 1) with
        | none => none
        | some (Except.error what, subEvents) => some (children, events ++ subEvents, some what)
        | some (Except.ok sub, subEvents) =>
          forEachEntry recur depth rest
            (children ++ [folderNode entry depth sub], events ++ subEvents)
      | Except.ok false =>
        forEachEntry recur depth rest (children ++ [fileNode entry depth], events)

/-- The exception that reaches the handler: the one raised in the loop body, or else the
one the iterator raised after its last entry. -/
def caught (raised : Option String) (iteratorError : Option String) : Option String :=
  match raised with
  | some what => some what
  | none => iteratorError

/-- Lines 43-45: the handler of the `try` block. The exception is reported on
`std::cerr`; the array collected so far is kept. -/
def catchError (error : Option String) (events : List Event) : List Event :=
  match error with
  | none => events
  | some what => events ++ [Event.cerr ("Error reading directory: " ++ what)]

/-- Lines 19-48: `buildTree` with a budget of nested calls. The result is the array
returned, or the exception `fs::exists` raised at line 20. -/
def buildTreeFuel (fs : FileSystem) :
    Nat → String → Int → Option (Except String Json × List Event)
  | 0, _, _ => none
  | fuel + 1, path, depth =>
    if depth > MAX_DEPTH then some (Except.ok (Json.array []), [Event.call path depth])
    else
      match fs.fs_exists path with
      | Except.error what => some (Except.error what, [Event.call path depth, Event.stat path])
      | Except.ok false =>
        some (Except.ok (Json.array []), [Event.call path depth, Event.stat path])
      | Except.ok true =>
        match forEachEntry (buildTreeFuel fs fuel) depth (fs.directory_iterator path).entries
            ([], [Event.call path depth, Event.stat path, Event.opendir path depth]) with
        | none => none
        | some (children, events, raised) =>
          some (Except.ok (Json.array children),
            catchError (caught raised (fs.directory_iterator path).error) events)

/-- The number of nested calls a call at `depth` can need: one per level up to
`MAX_DEPTH`, and the call beyond it that returns at once. -/
def callBudget (depth : Int) : Nat :=
  (MAX_DEPTH + 1 - depth).toNat + 1

/-- Lines 19-48: `buildTree(path, depth)`. -/
def buildTree (fs : FileSystem) (path : String) (depth : Int) :
    Option (Except String Json × List Event) :=
  buildTreeFuel fs (callBudget depth) path depth

/-- What a run of the process leaves behind. A process ended by `std::terminate` is
aborted with `SIGABRT`, which the shell reports as status 134. -/
structure Outcome where
  status : Int
  stdout : List String
  events : List Event

/-- The lines written to `std::cerr`, in order. -/
def stderrLines : List Event → List String
  | [] => []
  | Event.cerr line :: rest => line :: stderrLines rest
  | _ :: rest => stderrLines rest

/-- Lines 50-65: `main`. `argv` holds the program name and the arguments, so `argc` is
its length; `escape` is the string escaping of `json::dump`. An exception raised by
`fs::exists` (line 57), by `buildTree` (line 62) or by `dump` (line 63) is not caught. -/
def main (fs : FileSystem) (escape : String → Except String String) (argv : List String) :
    Option Outcome :=
  if argv.length < 2 then
    some ⟨1, [], [Event.cerr "Usage: ./filetree <directory>"]⟩
  else
    match fs.fs_exists (argv.getD 1 "") with
    | Except.error what => some ⟨134, [], [Event.stat (argv.getD 1 ""), Event.abort what]⟩
    | Except.ok false =>
      some ⟨1, [], [Event.stat (argv.getD 1 ""), Event.cerr "Directory does not exist."]⟩
    | Except.ok true =>
      match buildTree fs (argv.getD 1 "") 0 with
      | none => none
      | some (Except.error what, events) =>
        some ⟨134, [], Event.stat (argv.getD 1 "") :: events ++ [Event.abort what]⟩
      | some (Except.ok result, events) =>
        match Json.dump escape result with
        | Except.error what =>
          some ⟨134, [], Event.stat (argv.getD 1 "") :: events ++ [Event.abort what]⟩
        | Except.ok text => some ⟨0, [text], Event.stat (argv.getD 1 "") :: events⟩

/-! ## Concrete file systems -/

/-- The scenario of the specification: `a.txt`, `node_modules/` and `src/` holding
`b.txt`, under the root `/r`. -/
def scenarioFs : FileSystem where
  fs_exists := fun p => Except.ok
    (["/r", "/r/a.txt", "/r/node_modules", "/r/node_modules/x.js", "/r/src",
      "/r/src/b.txt"].contains p)
  directory_iterator := fun p =>
    if p = "/r" then
      ⟨[⟨"/r/a.txt", Except.ok false⟩, ⟨"/r/node_modules", Except.ok true⟩,
        ⟨"/r/src", Except.ok true⟩], none⟩
    else if p = "/r/node_modules" then ⟨[⟨"/r/node_modules/x.js", Except.ok false⟩], none⟩
    else if p = "/r/src" then ⟨[⟨"/r/src/b.txt", Except.ok false⟩], none⟩
    else ⟨[], some "filesystem error: directory iterator cannot open directory: Not a directory"⟩

/-- A directory `/p` whose subdirectory `/p/bad` yields two entries and then fails
with a read error. -/
def brokenFs : FileSystem where
  fs_exists := fun _ => Except.ok true
  directory_iterator := fun p =>
    if p = "/p" then
      ⟨[⟨"/p/x.txt", Except.ok false⟩, ⟨"/p/bad", Except.ok true⟩,
        ⟨"/p/dist", Except.ok true⟩, ⟨"/p/y.txt", Except.ok false⟩], none⟩
    else if p = "/p/bad" then
      ⟨[⟨"/p/bad/.git", Except.ok true⟩, ⟨"/p/bad/k.txt", Except.ok false⟩],
        some "Permission denied"⟩
    else ⟨[], some "Not a directory"⟩

/-- A directory that holds a symbolic link `self` to itself: every path exists and
lists one directory entry, so the structure is nested without end. -/
def loopFs : FileSystem where
  fs_exists := fun _ => Except.ok true
  directory_iterator := fun p => ⟨[⟨p ++ "/self", Except.ok true⟩], none⟩

/-- A directory `/r` read by the iterator without error, holding `aaa.txt`, a symbolic
link `me` that points to itself, and `zzz.txt`: the status query of `me` fails. -/
def symlinkFs : FileSystem where
  fs_exists := fun p =>
    if p = "/r/me" then Except.error "Too many levels of symbolic links" else Except.ok true
  directory_iterator := fun p =>
    if p = "/r" then
      ⟨[⟨"/r/aaa.txt", Except.ok false⟩,
        ⟨"/r/me", Except.error "Too many levels of symbolic links"⟩,
        ⟨"/r/zzz.txt", Except.ok false⟩], none⟩
    else ⟨[], some "Not a directory"⟩

/-- A directory `/p` holding `bad`, whose iteration fails after one entry, then `long`,
a directory whose full path is longer than the system accepts, so that its existence
query fails, then `y.txt`. -/
def longNameFs : FileSystem where
  fs_exists := fun p =>
    if p = "/p/long" then Except.error "File name too long" else Except.ok true
  directory_iterator := fun p =>
    if p = "/p" then
      ⟨[⟨"/p/bad", Except.ok true⟩, ⟨"/p/long", Except.ok true⟩,
        ⟨"/p/y.txt", Except.ok false⟩], none⟩
    else if p = "/p/bad" then ⟨[⟨"/p/bad/k.txt", Except.ok false⟩], some "Permission denied"⟩
    else ⟨[], some "Not a directory"⟩

/-- A file system in which no path exists. The existence query answers `false`, except
for a path whose base name is longer than the 255 bytes a name may have: there the status
query fails. -/
def emptyFs : FileSystem where
  fs_exists := fun p =>
    if (filename p).length > 255 then Except.error "File name too long" else Except.ok false
  directory_iterator := fun _ => ⟨[], some "No such file or directory"⟩

/-- A path whose base name has 300 characters. -/
def overlongPath : String :=
  "/" ++ String.mk (List.replicate 300 (Char.ofNat 97))

/-! ## Notions used to state the properties -/

/-- The value a call returned (`null` stands for a call that raised or ran out of
budget). -/
def valueOf (r : Option (Except String Json × List Event)) : Json :=
  match r with
  | some (Except.ok v, _) => v
  | _ => Json.null

/-- The entries of a listing that the loop does not skip. -/
def nonIgnored (entries : List DirEntry) : List DirEntry :=
  entries.filter (fun e => !shouldIgnore (filename e.path))

/-- The node the loop body appends for a non-ignored entry it handles. -/
def entryNode (recur : String → Int → Option (Except String Json × List Event))
    (depth : Int) (entry : DirEntry) : Json :=
  match entry.is_directory with
  | Except.ok true => folderNode entry depth (valueOf (recur entry.path (depth + 1)))
  | _ => fileNode entry depth

/-- The loop body gets through `entry` without an exception: the status query answers
and, for a directory, the recursive call returns. -/
def Emitted (recur : String → Int → Option (Except String Json × List Event))
    (depth : Int) (entry : DirEntry) : Prop :=
  entry.is_directory = Except.ok false ∨
    (entry.is_directory = Except.ok true ∧
      ∃ sub events, recur entry.path (depth + 1) = some (Except.ok sub, events))

/-- The same, read off the file system: `is_directory()` answers and, for a directory
that the recursive call looks up (`depth < MAX_DEPTH`), `fs::exists` answers. -/
def handled (fs : FileSystem) (depth : Int) (entry : DirEntry) : Bool :=
  match entry.is_directory with
  | Except.error _ => false
  | Except.ok false => true
  | Except.ok true =>
    decide (depth + 1 > MAX_DEPTH) ||
      (match fs.fs_exists entry.path with
        | Except.ok _ => true
        | Except.error _ => false)

/-- Membership of a node in a tree: an element of the array, or a node of the tree
stored under the `children` key of an element. -/
inductive InTree : Json → Json → Prop where
  | top {n : Json} {elems : List Json} : n ∈ elems → InTree n (Json.array elems)
  | nested {n m c : Json} {elems : List Json} :
      m ∈ elems → m.get? "children" = some c → InTree n c → InTree n (Json.array elems)

/-- What holds of every event of the call `buildTree(root, start)`: a call or a directory
listing other than the outermost one is one level or more below, and is about the path
of an entry that was not ignored; directories are listed at depth `MAX_DEPTH` at most. -/
def EventOk (root : String) (start : Int) : Event → Prop
  | Event.call p k =>
    (p = root ∧ k = start) ∨
      (start < k ∧ k ≤ MAX_DEPTH + 1 ∧ shouldIgnore (filename p) = false)
  | Event.opendir p k =>
    k ≤ MAX_DEPTH ∧ ((p = root ∧ k = start) ∨ (start < k ∧ shouldIgnore (filename p) = false))
  | _ => True

/-! ## The loop -/

theorem forEachEntry_congr (r1 r2 : String → Int → Option (Except String Json × List Event))
    (depth : Int) (h : ∀ q, r1 q (depth + 1) = r2 q (depth + 1)) (entries : List DirEntry) :
    ∀ state, forEachEntry r1 depth entries state = forEachEntry r2 depth entries state := by
  induction entries with
  | nil => intro state; rfl
  | cons e rest ih =>
    rintro ⟨children, events⟩
    simp only [forEachEntry, h, ih]

/-- The loop always ends when the recursive calls do. It appends the nodes of a leading
part `kept` of the non-ignored entries, each handled without exception; when no
exception is raised, that part is all of them. -/
theorem forEachEntry_total (recur : String → Int → Option (Except String Json × List Event))
    (depth : Int) (h : ∀ q, (recur q (depth + 1)).isSome = true) (entries : List DirEntry) :
    ∀ children events, ∃ kept dropped more raised,
      forEachEntry recur depth entries (children, events) =
        some (children ++ kept.map (entryNode recur depth), events ++ more, raised) ∧
      nonIgnored entries = kept ++ dropped ∧
      (∀ e ∈ kept, Emitted recur depth e) ∧
      (raised = none → dropped = []) ∧
      ((∀ e ∈ nonIgnored entries, Emitted recur depth e) → raised = none) := by
  induction entries with
  | nil =>
    intro children events
    exact ⟨[], [], [], none, by simp [forEachEntry], by simp [nonIgnored], by simp,
      fun _ => rfl, fun _ => rfl⟩
  | cons e rest ih =>
    intro children events
    by_cases hi : shouldIgnore (filename e.path) = true
    · obtain ⟨kept, dropped, more, raised, hm, h1, h2, h3, h4⟩ := ih children events
      refine ⟨kept, dropped, more, raised, ?_, ?_, h2, h3, ?_⟩
      · simp only [forEachEntry, hi, if_true]; exact hm
      · simpa [nonIgnored, hi] using h1
      · intro hall; apply h4; intro e2 he2; apply hall
        simpa [nonIgnored, hi] using he2
    · have hni : nonIgnored (e :: rest) = e :: nonIgnored rest := by
        simp [nonIgnored, hi]
      cases hd : e.is_directory with
      | error what =>
        refine ⟨[], e :: nonIgnored rest, [], some what, ?_, by simp [hni], by simp,
          (by intro hc; cases hc), ?_⟩
        · simp [forEachEntry, hi, hd]
        · intro hall
          have := hall e (by simp [hni])
          rcases this with h1 | ⟨h1, _⟩ <;> rw [hd] at h1 <;> cases h1
      | ok b =>
        cases b with
        | false =>
          obtain ⟨kept, dropped, more, raised, hm, h1, h2, h3, h4⟩ :=
            ih (children ++ [fileNode e depth]) events
          refine ⟨e :: kept, dropped, more, raised, ?_, by simp [hni, h1], ?_, h3, ?_⟩
          · simp only [forEachEntry, hi, hd]
            simpa [entryNode, hd] using hm
          · intro e2 he2
            rcases List.mem_cons.mp he2 with rfl | he2
            · exact Or.inl hd
            · exact h2 e2 he2
          · intro hall; apply h4; intro e2 he2; apply hall
            simp [hni, he2]
        | true =>
          obtain ⟨⟨res, subEvents⟩, hs⟩ := Option.isSome_iff_exists.mp (h e.path)
          cases res with
          | error what =>
            refine ⟨[], e :: nonIgnored rest, subEvents, some what, ?_, by simp [hni],
              by simp, (by intro hc; cases hc), ?_⟩
            · simp [forEachEntry, hi, hd, hs]
            · intro hall
              have := hall e (by simp [hni])
              rcases this with h1 | ⟨_, sub, ev, h1⟩
              · rw [hd] at h1; cases h1
              · rw [hs] at h1; cases h1
          | ok sub =>
            obtain ⟨kept, dropped, more, raised, hm, h1, h2, h3, h4⟩ :=
              ih (children ++ [folderNode e depth sub]) (events ++ subEvents)
            refine ⟨e :: kept, dropped, subEvents ++ more, raised, ?_, by simp [hni, h1],
              ?_, h3, ?_⟩
            · simp only [forEachEntry, hi, hd, hs]
              simpa [entryNode, hd, hs, valueOf] using hm
            · intro e2 he2
              rcases List.mem_cons.mp he2 with rfl | he2
              · exact Or.inr ⟨hd, sub, subEvents, hs⟩
              · exact h2 e2 he2
            · intro hall; apply h4; intro e2 he2; apply hall
              simp [hni, he2]

/-! ## The call budget -/

theorem buildTreeFuel_succ (fs : FileSystem) (fuel : Nat) (path : String) (depth : Int) :
    buildTreeFuel fs (fuel + 1) path depth =
      if depth > MAX_DEPTH then some (Except.ok (Json.array []), [Event.call path depth])
      else
        match fs.fs_exists path with
        | Except.error what =>
          some (Except.error what, [Event.call path depth, Event.stat path])
        | Except.ok false =>
          some (Except.ok (Json.array []), [Event.call path depth, Event.stat path])
        | Except.ok true =>
          match forEachEntry (buildTreeFuel fs fuel) depth (fs.directory_iterator path).entries
              ([], [Event.call path depth, Event.stat path, Event.opendir path depth]) with
          | none => none
          | some (children, events, raised) =>
            some (Except.ok (Json.array children),
              catchError (caught raised (fs.directory_iterator path).error) events) :=
  rfl

theorem buildTreeFuel_beyond (fs : FileSystem) (fuel : Nat) (path : String) (depth : Int)
    (h : depth > MAX_DEPTH) :
    buildTreeFuel fs (fuel + 1) path depth =
      some (Except.ok (Json.array []), [Event.call path depth]) := by
  rw [buildTreeFuel_succ, if_pos h]

theorem buildTreeFuel_isSome (fs : FileSystem) :
    ∀ (n : Nat) (path : String) (depth : Int), (MAX_DEPTH + 1 - depth).toNat ≤ n →
      (buildTreeFuel fs (n + 1) path depth).isSome = true := by
  intro n
  induction n with
  | zero =>
    intro path depth h
    have hd : depth > MAX_DEPTH := by omega
    simp [buildTreeFuel_beyond fs 0 path depth hd]
  | succ n ih =>
    intro path depth h
    by_cases hd : depth > MAX_DEPTH
    · simp [buildTreeFuel_beyond fs _ path depth hd]
    · rw [buildTreeFuel_succ, if_neg hd]
      cases he : fs.fs_exists path with
      | error what => simp
      | ok b =>
        cases b with
        | false => simp
        | true =>
          have hrec : ∀ q, (buildTreeFuel fs (n + 1) q (depth + 1)).isSome = true :=
            fun q => ih q (depth + 1) (by omega)
          obtain ⟨kept, dropped, more, raised, hm, _⟩ :=
            forEachEntry_total (buildTreeFuel fs (n + 1)) depth hrec
              (fs.directory_iterator path).entries []
              [Event.call path depth, Event.stat path, Event.opendir path depth]
          simp only [hm]
          simp

theorem buildTreeFuel_stable (fs : FileSystem) :
    ∀ (n m : Nat) (path : String) (depth : Int), (MAX_DEPTH + 1 - depth).toNat ≤ n →
      (MAX_DEPTH + 1 - depth).toNat ≤ m →
      buildTreeFuel fs (n + 1) path depth = buildTreeFuel fs (m + 1) path depth := by
  intro n
  induction n with
  | zero =>
    intro m path depth h _
    have hd : depth > MAX_DEPTH := by omega
    rw [buildTreeFuel_beyond fs 0 path depth hd, buildTreeFuel_beyond fs m path depth hd]
  | succ n ih =>
    intro m path depth hn hm
    by_cases hd : depth > MAX_DEPTH
    · rw [buildTreeFuel_beyond fs _ path depth hd, buildTreeFuel_beyond fs m path depth hd]
    · cases m with
      | zero => omega
      | succ m =>
        have hrec : ∀ q, buildTreeFuel fs (n + 1) q (depth + 1) =
            buildTreeFuel fs (m + 1) q (depth + 1) :=
          fun q => ih m q (depth + 1) (by omega) (by omega)
        rw [buildTreeFuel_succ, buildTreeFuel_succ, forEachEntry_congr _ _ depth hrec]

/-- The defining equation of the source: `buildTree` in terms of its own recursive
calls, with no budget left in sight. -/
theorem buildTree_unfold (fs : FileSystem) (path : String) (depth : Int) :
    buildTree fs path depth =
      if depth > MAX_DEPTH then some (Except.ok (Json.array []), [Event.call path depth])
      else
        match fs.fs_exists path with
        | Except.error what =>
          some (Except.error what, [Event.call path depth, Event.stat path])
        | Except.ok false =>
          some (Except.ok (Json.array []), [Event.call path depth, Event.stat path])
        | Except.ok true =>
          match forEachEntry (buildTree fs) depth (fs.directory_iterator path).entries
              ([], [Event.call path depth, Event.stat path, Event.opendir path depth]) with
          | none => none
          | some (children, events, raised) =>
            some (Except.ok (Json.array children),
              catchError (caught raised (fs.directory_iterator path).error) events) := by
  by_cases hd : depth > MAX_DEPTH
  · simp [buildTree, callBudget, buildTreeFuel_beyond fs _ path depth hd, hd]
  · have hb : callBudget depth = (MAX_DEPTH + 1 - depth).toNat - 1 + 1 + 1 := by
      unfold callBudget; omega
    have hrec : ∀ q, buildTreeFuel fs ((MAX_DEPTH + 1 - depth).toNat - 1 + 1) q (depth + 1) =
        buildTree fs q (depth + 1) := by
      intro q
      unfold buildTree callBudget
      exact buildTreeFuel_stable fs _ _ q (depth + 1) (by omega) (by omega)
    unfold buildTree
    rw [hb, buildTreeFuel_succ, forEachEntry_congr _ _ depth hrec]
    rfl

theorem buildTree_isSome (fs : FileSystem) (path : String) (depth : Int) :
    (buildTree fs path depth).isSome = true :=
  buildTreeFuel_isSome fs _ path depth (le_refl _)

theorem buildTree_beyond (fs : FileSystem) (path : String) (depth : Int)
    (h : depth > MAX_DEPTH) :
    buildTree fs path depth = some (Except.ok (Json.array []), [Event.call path depth]) :=
  buildTreeFuel_beyond fs _ path depth h

theorem buildTree_raises (fs : FileSystem) (path : String) (depth : Int) (what : String)
    (hmax : depth ≤ MAX_DEPTH) (h : fs.fs_exists path = Except.error what) :
    buildTree fs path depth =
      some (Except.error what, [Event.call path depth, Event.stat path]) := by
  rw [buildTree_unfold, if_neg (by omega), h]

theorem buildTree_absent (fs : FileSystem) (path : String) (depth : Int)
    (hmax : depth ≤ MAX_DEPTH) (h : fs.fs_exists path = Except.ok false) :
    buildTree fs path depth =
      some (Except.ok (Json.array []), [Event.call path depth, Event.stat path]) := by
  rw [buildTree_unfold, if_neg (by omega), h]

/-- A call that passes the guard returns, without raising, the nodes of a leading part
`kept` of the entries that are not ignored, in listing order, each handled without
exception; the part is all of them when no exception is raised in the loop. Its events
start with the call, the existence query and the listing, and end with the report of
the exception caught, if there was one. -/
theorem buildTree_listed_events (fs : FileSystem) (path : String) (depth : Int)
    (hexists : fs.fs_exists path = Except.ok true) (hmax : depth ≤ MAX_DEPTH) :
    ∃ kept dropped more raised, buildTree fs path depth =
      some (Except.ok (Json.array (kept.map (entryNode (buildTree fs) depth))),
        catchError (caught raised (fs.directory_iterator path).error)
          ([Event.call path depth, Event.stat path, Event.opendir path depth] ++ more)) ∧
      nonIgnored (fs.directory_iterator path).entries = kept ++ dropped ∧
      (∀ e ∈ kept, Emitted (buildTree fs) depth e) ∧
      (raised = none → dropped = []) ∧
      ((∀ e ∈ nonIgnored (fs.directory_iterator path).entries,
        Emitted (buildTree fs) depth e) → raised = none) := by
  obtain ⟨kept, dropped, more, raised, hm, h1, h2, h3, h4⟩ :=
    forEachEntry_total (buildTree fs) depth
      (fun q => buildTree_isSome fs q (depth + 1))
      (fs.directory_iterator path).entries []
      [Event.call path depth, Event.stat path, Event.opendir path depth]
  refine ⟨kept, dropped, more, raised, ?_, h1, h2, h3, h4⟩
  rw [buildTree_unfold, if_neg (by omega), hexists]
  simp only [hm, List.nil_append]

/-- The four ways a call ends. -/
theorem buildTree_cases (fs : FileSystem) (path : String) (depth : Int) :
    (depth > MAX_DEPTH ∧
      buildTree fs path depth = some (Except.ok (Json.array []), [Event.call path depth])) ∨
    (depth ≤ MAX_DEPTH ∧ ∃ what, fs.fs_exists path = Except.error what ∧
      buildTree fs path depth =
        some (Except.error what, [Event.call path depth, Event.stat path])) ∨
    (depth ≤ MAX_DEPTH ∧ fs.fs_exists path = Except.ok false ∧
      buildTree fs path depth =
        some (Except.ok (Json.array []), [Event.call path depth, Event.stat path])) ∨
    (depth ≤ MAX_DEPTH ∧ fs.fs_exists path = Except.ok true ∧
      ∃ kept dropped events, buildTree fs path depth =
          some (Except.ok (Json.array (kept.map (entryNode (buildTree fs) depth))), events) ∧
        nonIgnored (fs.directory_iterator path).entries = kept ++ dropped ∧
        ∀ e ∈ kept, Emitted (buildTree fs) depth e) := by
  by_cases hd : depth > MAX_DEPTH
  · exact Or.inl ⟨hd, buildTree_beyond fs path depth hd⟩
  · have hmax : depth ≤ MAX_DEPTH := by omega
    cases he : fs.fs_exists path with
    | error what =>
      exact Or.inr (Or.inl ⟨hmax, what, rfl, buildTree_raises fs path depth what hmax he⟩)
    | ok b =>
      cases b with
      | false => exact Or.inr (Or.inr (Or.inl ⟨hmax, rfl, buildTree_absent fs path depth hmax he⟩))
      | true =>
        obtain ⟨kept, dropped, more, raised, hm, h1, h2, _, _⟩ :=
          buildTree_listed_events fs path depth he hmax
        exact Or.inr (Or.inr (Or.inr ⟨hmax, rfl, kept, dropped, _, hm, h1, h2⟩))

/-- A call raises exactly when it passes the depth guard and its existence query
raises. -/
theorem buildTree_answers (fs : FileSystem) (path : String) (depth : Int)
    (h : depth > MAX_DEPTH ∨ ∃ b, fs.fs_exists path = Except.ok b) :
    ∃ tree events, buildTree fs path depth = some (Except.ok tree, events) := by
  rcases buildTree_cases fs path depth with ⟨_, h1⟩ | ⟨hmax, what, h1, _⟩ | ⟨_, _, h1⟩ |
    ⟨_, _, kept, dropped, events, h1, _⟩
  · exact ⟨_, _, h1⟩
  · rcases h with h | ⟨b, h⟩
    · omega
    · rw [h1] at h; cases h
  · exact ⟨_, _, h1⟩
  · exact ⟨_, _, h1⟩

/-! ## The members of a node -/

theorem fileNode_eq (e : DirEntry) (d : Int) :
    fileNode e d = Json.object [("depth", Json.number d), ("name", Json.string (filename e.path)),
      ("path", Json.string e.path), ("type", Json.string "file")] := rfl

theorem folderNode_eq (e : DirEntry) (d : Int) (c : Json) :
    folderNode e d c = Json.object [("children", c), ("depth", Json.number d),
      ("name", Json.string (filename e.path)), ("path", Json.string e.path),
      ("type", Json.string "folder")] := rfl

theorem entryNode_name (recur : String → Int → Option (Except String Json × List Event))
    (d : Int) (e : DirEntry) :
    (entryNode recur d e).get? "name" = some (Json.string (filename e.path)) := by
  unfold entryNode; split
  · rw [folderNode_eq]; rfl
  · rw [fileNode_eq]; rfl

theorem entryNode_path (recur : String → Int → Option (Except String Json × List Event))
    (d : Int) (e : DirEntry) : (entryNode recur d e).get? "path" = some (Json.string e.path) := by
  unfold entryNode; split
  · rw [folderNode_eq]; rfl
  · rw [fileNode_eq]; rfl

theorem entryNode_depth (recur : String → Int → Option (Except String Json × List Event))
    (d : Int) (e : DirEntry) : (entryNode recur d e).get? "depth" = some (Json.number d) := by
  unfold entryNode; split
  · rw [folderNode_eq]; rfl
  · rw [fileNode_eq]; rfl

theorem entryNode_folder (recur : String → Int → Option (Except String Json × List Event))
    (d : Int) (e : DirEntry) (h : e.is_directory = Except.ok true) :
    entryNode recur d e = folderNode e d (valueOf (recur e.path (d + 1))) := by
  unfold entryNode; rw [h]

/-- A node of type `folder` was built from an entry whose status query answered
"directory". -/
theorem entryNode_folder_iff (recur : String → Int → Option (Except String Json × List Event))
    (d : Int) (e : DirEntry) :
    (entryNode recur d e).get? "type" = some (Json.string "folder") ↔
      e.is_directory = Except.ok true := by
  constructor
  · intro h
    unfold entryNode at h
    split at h
    · assumption
    · rw [fileNode_eq] at h
      have h2 : some (Json.string "file") = some (Json.string "folder") := h
      simp at h2
  · intro h
    rw [entryNode_folder _ _ _ h, folderNode_eq]; rfl

theorem entryNode_children_folder
    (recur : String → Int → Option (Except String Json × List Event))
    (d : Int) (e : DirEntry) (h : e.is_directory = Except.ok true) :
    (entryNode recur d e).get? "children" = some (valueOf (recur e.path (d + 1))) := by
  rw [entryNode_folder _ _ _ h, folderNode_eq]; rfl

theorem entryNode_children_file
    (recur : String → Int → Option (Except String Json × List Event))
    (d : Int) (e : DirEntry) (h : e.is_directory ≠ Except.ok true) :
    (entryNode recur d e).get? "children" = none := by
  unfold entryNode; split
  · next h2 => exact absurd h2 h
  · rw [fileNode_eq]; rfl

/-! ## Where the nodes of a tree come from -/

theorem mem_nonIgnored {e : DirEntry} {entries : List DirEntry} :
    e ∈ nonIgnored entries ↔ e ∈ entries ∧ shouldIgnore (filename e.path) = false := by
  simp [nonIgnored]

theorem not_inTree_nil (n : Json) : ¬ InTree n (Json.array []) := by
  intro h
  cases h with
  | top hm => simp at hm
  | nested hm _ _ => simp at hm

/-- The array a call returned: empty, or the nodes of handled, non-ignored entries of
the directory. -/
theorem buildTree_ok_nodes (fs : FileSystem) (path : String) (depth : Int) (tree : Json)
    (events : List Event) (h : buildTree fs path depth = some (Except.ok tree, events)) :
    tree = Json.array [] ∨
      (depth ≤ MAX_DEPTH ∧ fs.fs_exists path = Except.ok true ∧ ∃ kept dropped,
        tree = Json.array (kept.map (entryNode (buildTree fs) depth)) ∧
        nonIgnored (fs.directory_iterator path).entries = kept ++ dropped ∧
        ∀ e ∈ kept, Emitted (buildTree fs) depth e) := by
  rcases buildTree_cases fs path depth with ⟨_, h1⟩ | ⟨_, what, _, h1⟩ | ⟨_, _, h1⟩ |
    ⟨hmax, he, kept, dropped, ev, h1, h2, h3⟩
  · rw [h1] at h; injection h with h; injection h with h; injection h with h
    exact Or.inl h.symm
  · rw [h1] at h; injection h with h; injection h with h; cases h
  · rw [h1] at h; injection h with h; injection h with h; injection h with h
    exact Or.inl h.symm
  · rw [h1] at h; injection h with h; injection h with h; injection h with h
    exact Or.inr ⟨hmax, he, kept, dropped, h.symm, h2, h3⟩

/-- Every node of a returned tree, at whatever nesting, is the node the loop body builds
for a non-ignored entry of an existing directory, handled without exception, at a depth
between the starting depth and `MAX_DEPTH`; its `children`, when it is a folder, are the
result of the call one level down. -/
theorem node_origin (fs : FileSystem) :
    ∀ (n : Nat) (path : String) (depth : Int), (MAX_DEPTH + 1 - depth).toNat ≤ n →
      ∀ tree events, buildTree fs path depth = some (Except.ok tree, events) →
      ∀ node, InTree node tree →
        ∃ dir k e, depth ≤ k ∧ k ≤ MAX_DEPTH ∧ fs.fs_exists dir = Except.ok true ∧
          e ∈ (fs.directory_iterator dir).entries ∧ shouldIgnore (filename e.path) = false ∧
          Emitted (buildTree fs) k e ∧ node = entryNode (buildTree fs) k e := by
  intro n
  induction n with
  | zero =>
    intro path depth h tree events hb node hin
    rcases buildTree_ok_nodes fs path depth tree events hb with rfl | ⟨hmax, _⟩
    · exact absurd hin (not_inTree_nil node)
    · omega
  | succ n ih =>
    intro path depth h tree events hb node hin
    rcases buildTree_ok_nodes fs path depth tree events hb with rfl |
      ⟨hmax, he, kept, dropped, rfl, hsplit, hem⟩
    · exact absurd hin (not_inTree_nil node)
    · have hmem : ∀ e ∈ kept, e ∈ (fs.directory_iterator path).entries ∧
          shouldIgnore (filename e.path) = false := by
        intro e hk
        apply mem_nonIgnored.mp
        rw [hsplit]
        exact List.mem_append_left _ hk
      cases hin with
      | top hm =>
        obtain ⟨e, hk, rfl⟩ := List.mem_map.mp hm
        exact ⟨path, depth, e, le_refl _, hmax, he, (hmem e hk).1, (hmem e hk).2,
          hem e hk, rfl⟩
      | nested hm hc hsub =>
        obtain ⟨e, hk, rfl⟩ := List.mem_map.mp hm
        rcases hem e hk with hfile | ⟨hdir, sub, ev, hrec⟩
        · rw [entryNode_children_file _ _ _ (by rw [hfile]; intro hx; cases hx)] at hc
          cases hc
        · rw [entryNode_children_folder _ _ _ hdir, hrec] at hc
          injection hc with hc
          have hc2 : sub = _ := hc
          subst hc2
          obtain ⟨dir, k, e2, hk1, hk2, h3, h4, h5, h6, h7⟩ :=
            ih e.path (depth + 1) (by omega) sub ev hrec node hsub
          exact ⟨dir, k, e2, by omega, hk2, h3, h4, h5, h6, h7⟩

theorem node_origin_of_inTree (fs : FileSystem) (path : String) (depth : Int) (tree : Json)
    (events : List Event) (hb : buildTree fs path depth = some (Except.ok tree, events))
    (node : Json) (h : InTree node tree) :
    ∃ dir k e, depth ≤ k ∧ k ≤ MAX_DEPTH ∧ fs.fs_exists dir = Except.ok true ∧
      e ∈ (fs.directory_iterator dir).entries ∧ shouldIgnore (filename e.path) = false ∧
      Emitted (buildTree fs) k e ∧ node = entryNode (buildTree fs) k e :=
  node_origin fs _ path depth (le_refl _) tree events hb node h

/-! ## The events of a call -/

theorem EventOk.lift {q root : String} {depth : Int} {ev : Event} (hd : depth ≤ MAX_DEPTH)
    (hq : shouldIgnore (filename q) = false) (h : EventOk q (depth + 1) ev) :
    EventOk root depth ev := by
  cases ev with
  | call p k =>
    rcases h with ⟨rfl, rfl⟩ | ⟨h1, h2, h3⟩
    · exact Or.inr ⟨by omega, by omega, hq⟩
    · exact Or.inr ⟨by omega, h2, h3⟩
  | opendir p k =>
    obtain ⟨hk, h⟩ := h
    rcases h with ⟨rfl, rfl⟩ | ⟨h1, h3⟩
    · exact ⟨hk, Or.inr ⟨by omega, hq⟩⟩
    · exact ⟨hk, Or.inr ⟨by omega, h3⟩⟩
  | stat p => trivial
  | cerr line => trivial
  | abort what => trivial

theorem forEachEntry_events (recur : String → Int → Option (Except String Json × List Event))
    (depth : Int) (Q : Event → Prop) (entries : List DirEntry)
    (h : ∀ e ∈ entries, shouldIgnore (filename e.path) = false →
      e.is_directory = Except.ok true →
      ∀ r, recur e.path (depth + 1) = some r → ∀ ev ∈ r.2, Q ev) :
    ∀ children events, (∀ ev ∈ events, Q ev) →
      ∀ r, forEachEntry recur depth entries (children, events) = some r →
        ∀ ev ∈ r.2.1, Q ev := by
  induction entries with
  | nil =>
    intro children events hq r hr ev hev
    simp only [forEachEntry, Option.some.injEq] at hr
    subst hr
    exact hq ev hev
  | cons e rest ih =>
    have ih2 := ih (fun e2 h2 => h e2 (List.mem_cons_of_mem _ h2))
    intro children events hq r hr
    by_cases hi : shouldIgnore (filename e.path) = true
    · simp only [forEachEntry, hi, if_true] at hr
      exact ih2 children events hq r hr
    · have hi2 : shouldIgnore (filename e.path) = false := by simpa using hi
      cases hd : e.is_directory with
      | error what =>
        simp only [forEachEntry, hi2, hd, Bool.false_eq_true, if_false,
          Option.some.injEq] at hr
        subst hr
        exact hq
      | ok b =>
        cases b with
        | false =>
          simp only [forEachEntry, hi, hd] at hr
          exact ih2 _ _ hq r hr
        | true =>
          cases hrec : recur e.path (depth + 1) with
          | none => simp [forEachEntry, hi, hd, hrec] at hr
          | some res =>
            obtain ⟨out, subEvents⟩ := res
            have hsub : ∀ ev ∈ events ++ subEvents, Q ev := by
              intro ev hev
              rcases List.mem_append.mp hev with h1 | h1
              · exact hq ev h1
              · exact h e (List.mem_cons_self _ _) hi2 hd _ hrec ev h1
            cases out with
            | error what =>
              simp only [forEachEntry, hi2, hd, hrec, Bool.false_eq_true, if_false,
                Option.some.injEq] at hr
              subst hr
              exact hsub
            | ok sub =>
              simp only [forEachEntry, hi, hd, hrec] at hr
              exact ih2 _ _ hsub r hr

theorem events_ok (fs : FileSystem) :
    ∀ (n : Nat) (path : String) (depth : Int), (MAX_DEPTH + 1 - depth).toNat ≤ n →
      ∀ r, buildTree fs path depth = some r → ∀ ev ∈ r.2, EventOk path depth ev := by
  intro n
  induction n with
  | zero =>
    intro path depth h r hr ev hev
    have hd : depth > MAX_DEPTH := by omega
    rw [buildTree_beyond fs path depth hd] at hr
    injection hr with hr
    subst hr
    simp only [List.mem_singleton] at hev
    subst hev
    exact Or.inl ⟨rfl, rfl⟩
  | succ n ih =>
    intro path depth h r hr ev hev
    have hshort : ∀ ev2 ∈ [Event.call path depth, Event.stat path], EventOk path depth ev2 := by
      intro ev2 hev2
      simp only [List.mem_cons, List.mem_singleton, List.not_mem_nil, or_false] at hev2
      rcases hev2 with rfl | rfl
      · exact Or.inl ⟨rfl, rfl⟩
      · trivial
    by_cases hd : depth > MAX_DEPTH
    · rw [buildTree_beyond fs path depth hd] at hr
      injection hr with hr
      subst hr
      simp only [List.mem_singleton] at hev
      subst hev
      exact Or.inl ⟨rfl, rfl⟩
    · have hle : depth ≤ MAX_DEPTH := by omega
      cases he : fs.fs_exists path with
      | error what =>
        rw [buildTree_raises fs path depth what hle he] at hr
        injection hr with hr
        subst hr
        exact hshort ev hev
      | ok b =>
        cases b with
        | false =>
          rw [buildTree_absent fs path depth hle he] at hr
          injection hr with hr
          subst hr
          exact hshort ev hev
        | true =>
          rw [buildTree_unfold, if_neg hd, he] at hr
          cases hloop : forEachEntry (buildTree fs) depth (fs.directory_iterator path).entries
              ([], [Event.call path depth, Event.stat path, Event.opendir path depth]) with
          | none => rw [hloop] at hr; cases hr
          | some res =>
            obtain ⟨children, events, raised⟩ := res
            rw [hloop] at hr
            injection hr with hr
            subst hr
            have hall := forEachEntry_events (buildTree fs) depth (EventOk path depth)
              (fs.directory_iterator path).entries
              (fun e _ hi _ r2 hr2 ev2 hev2 =>
                EventOk.lift hle hi (ih e.path (depth + 1) (by omega) r2 hr2 ev2 hev2))
              [] [Event.call path depth, Event.stat path, Event.opendir path depth]
              (by
                intro ev2 hev2
                simp only [List.mem_cons, List.mem_singleton, List.not_mem_nil,
                  or_false] at hev2
                rcases hev2 with rfl | rfl | rfl
                · exact Or.inl ⟨rfl, rfl⟩
                · trivial
                · exact ⟨hle, Or.inl ⟨rfl, rfl⟩⟩)
              _ hloop
            simp only at hev hall
            unfold catchError at hev
            split at hev
            · exact hall ev hev
            · rcases List.mem_append.mp hev with h1 | h1
              · exact hall ev h1
              · simp only [List.mem_singleton] at h1
                subst h1
                trivial

/-! ## Shared consequences -/

theorem shouldIgnore_eq_false_iff (name : String) :
    shouldIgnore name = false ↔ name ∉ ignoreList := by
  simp [shouldIgnore]

theorem nonIgnored_eq_filter (entries : List DirEntry) :
    nonIgnored entries = entries.filter (fun e => decide (filename e.path ∉ ignoreList)) := by
  unfold nonIgnored
  congr 1
  funext e
  by_cases h : shouldIgnore (filename e.path) = true
  · have : filename e.path ∈ ignoreList := by simpa [shouldIgnore] using h
    simp [h, this]
  · have h2 : shouldIgnore (filename e.path) = false := by simpa using h
    have : filename e.path ∉ ignoreList := (shouldIgnore_eq_false_iff _).mp h2
    simp [h2, this]

/-- An entry the file system lets through is handled by the loop body without
exception. -/
theorem emitted_of_handled (fs : FileSystem) (depth : Int) (e : DirEntry)
    (h : handled fs depth e = true) : Emitted (buildTree fs) depth e := by
  unfold handled at h
  cases hd : e.is_directory with
  | error what => rw [hd] at h; cases h
  | ok b =>
    cases b with
    | false => exact Or.inl hd
    | true =>
      rw [hd] at h
      refine Or.inr ⟨hd, ?_⟩
      apply buildTree_answers
      simp only [Bool.or_eq_true, decide_eq_true_eq] at h
      rcases h with h | h
      · exact Or.inl h
      · right
        cases hx : fs.fs_exists e.path with
        | error what => rw [hx] at h; cases h
        | ok b => exact ⟨b, rfl⟩

/-- A directory that exists, at a depth within the bound, whose iterator raises no
error and whose non-ignored entries are all handled: the call returns one node for
each of them, in listing order. -/
theorem buildTree_listed (fs : FileSystem) (path : String) (depth : Int)
    (hexists : fs.fs_exists path = Except.ok true) (hmax : depth ≤ MAX_DEPTH)
    (hhandled : ∀ e ∈ (fs.directory_iterator path).entries,
      shouldIgnore (filename e.path) = false → handled fs depth e = true) :
    ∃ more, buildTree fs path depth =
      some (Except.ok (Json.array ((nonIgnored (fs.directory_iterator path).entries).map
        (entryNode (buildTree fs) depth))),
        catchError (fs.directory_iterator path).error
          ([Event.call path depth, Event.stat path, Event.opendir path depth] ++ more)) := by
  obtain ⟨kept, dropped, more, raised, hm, h1, _, h3, h4⟩ :=
    buildTree_listed_events fs path depth hexists hmax
  have hr : raised = none := by
    apply h4
    intro e he
    obtain ⟨he1, he2⟩ := mem_nonIgnored.mp he
    exact emitted_of_handled fs depth e (hhandled e he1 he2)
  subst hr
  have hd := h3 rfl
  subst hd
  rw [List.append_nil] at h1
  rw [h1]
  exact ⟨more, hm⟩

theorem all_handled_iff (fs : FileSystem) (depth : Int) (entries : List DirEntry) :
    (entries.filter (fun e => decide (filename e.path ∉ ignoreList))).all
        (handled fs depth) = true ↔
      ∀ e ∈ entries, shouldIgnore (filename e.path) = false → handled fs depth e = true := by
  simp only [List.all_eq_true, List.mem_filter, decide_eq_true_eq, shouldIgnore_eq_false_iff]
  constructor
  · intro h e he hi; exact h e ⟨he, hi⟩
  · intro h e he; exact h e he.1 he.2

theorem buildTree_listed_value (fs : FileSystem) (path : String) (depth : Int)
    (hexists : fs.fs_exists path = Except.ok true) (hmax : depth ≤ MAX_DEPTH)
    (hhandled : ((fs.directory_iterator path).entries.filter
      (fun e => decide (filename e.path ∉ ignoreList))).all (handled fs depth) = true) :
    ∃ events, buildTree fs path depth =
      some (Except.ok (Json.array (((fs.directory_iterator path).entries.filter
        (fun e => decide (filename e.path ∉ ignoreList))).map
          (entryNode (buildTree fs) depth))), events) := by
  obtain ⟨more, h⟩ := buildTree_listed fs path depth hexists hmax
    ((all_handled_iff fs depth _).mp hhandled)
  rw [nonIgnored_eq_filter] at h
  exact ⟨_, h⟩

/-! ## Properties of the tree -/

/-- C1, as amended. For a directory `D` that exists, whose iterator raises no error and
whose non-ignored entries are all handled by the loop body without exception
(`is_directory()` answers and, for a directory entered, `fs::exists` answers), and a
depth `d` with `0 ≤ d ≤ MAX_DEPTH`: when the listing of `D` has exactly `N` entries whose
base name is not in the ignore list, `buildTree(D, d)` returns an array of exactly `N`
nodes, and each of them has its `depth` member equal to `d`. -/
theorem buildTree_count_and_depth (fs : FileSystem) (D : String) (d : Int) (N : Nat)
    (hexists : fs.fs_exists D = Except.ok true)
    (_hread : (fs.directory_iterator D).error = none)
    (hhandled : ((fs.directory_iterator D).entries.filter
      (fun e => decide (filename e.path ∉ ignoreList))).all (handled fs d) = true)
    (_h0 : 0 ≤ d) (hmax : d ≤ MAX_DEPTH)
    (hN : ((fs.directory_iterator D).entries.filter
      (fun e => decide (filename e.path ∉ ignoreList))).length = N) :
    ∃ nodes events, buildTree fs D d = some (Except.ok (Json.array nodes), events) ∧
      nodes.length = N ∧ ∀ n ∈ nodes, n.get? "depth" = some (Json.number d) := by
  obtain ⟨events, h⟩ := buildTree_listed_value fs D d hexists hmax hhandled
  refine ⟨_, events, h, ?_, ?_⟩
  · rw [List.length_map, hN]
  · intro n hn
    obtain ⟨e, _, rfl⟩ := List.mem_map.mp hn
    exact entryNode_depth _ _ _

/-- C1 as amended, at the scenario of the specification: the root `/r` holds three
entries, two of them not ignored, and the call at depth 0 returns two nodes of depth 0. -/
theorem buildTree_count_and_depth_witness :
    scenarioFs.fs_exists "/r" = Except.ok true ∧
    (scenarioFs.directory_iterator "/r").error = none ∧
    ((scenarioFs.directory_iterator "/r").entries.filter
      (fun e => decide (filename e.path ∉ ignoreList))).length = 2 ∧
    ∃ nodes events, buildTree scenarioFs "/r" 0 = some (Except.ok (Json.array nodes), events) ∧
      nodes.length = 2 ∧ ∀ n ∈ nodes, n.get? "depth" = some (Json.number 0) :=
  ⟨rfl, rfl, by decide,
    buildTree_count_and_depth scenarioFs "/r" 0 2 rfl rfl rfl (by decide) (by decide)
      (by decide)⟩

/-- C1 as first stated fails, at two inputs. The directory `/r` of `symlinkFs` exists and
its iterator raises no error; three of its entries are not ignored. The status query of
the second, a symbolic link to itself, raises inside the `try` block: the loop ends
there, and the call at depth 0 returns the node of `aaa.txt` alone, not three nodes.
The directory `/p` of `longNameFs` is read by the iterator without error as well and
has three entries, none ignored; the existence query of the second raises in the
recursive call, and the call at depth 0 returns the node of `bad` alone. -/
theorem buildTree_count_fails_on_status_error :
    (symlinkFs.fs_exists "/r" = Except.ok true ∧
      (symlinkFs.directory_iterator "/r").error = none ∧
      ((symlinkFs.directory_iterator "/r").entries.filter
        (fun e => decide (filename e.path ∉ ignoreList))).length = 3 ∧
      buildTree symlinkFs "/r" 0 =
        some (Except.ok (Json.array [fileNode ⟨"/r/aaa.txt", Except.ok false⟩ 0]),
          [Event.call "/r" 0, Event.stat "/r", Event.opendir "/r" 0,
            Event.cerr "Error reading directory: Too many levels of symbolic links"]) ∧
      ¬ ∃ nodes events,
        buildTree symlinkFs "/r" 0 = some (Except.ok (Json.array nodes), events) ∧
        nodes.length = 3) ∧
    (longNameFs.fs_exists "/p" = Except.ok true ∧
      (longNameFs.directory_iterator "/p").error = none ∧
      ((longNameFs.directory_iterator "/p").entries.filter
        (fun e => decide (filename e.path ∉ ignoreList))).length = 3 ∧
      ¬ ∃ nodes events,
        buildTree longNameFs "/p" 0 = some (Except.ok (Json.array nodes), events) ∧
        nodes.length = 3) := by
  have h : buildTree symlinkFs "/r" 0 =
      some (Except.ok (Json.array [fileNode ⟨"/r/aaa.txt", Except.ok false⟩ 0]),
        [Event.call "/r" 0, Event.stat "/r", Event.opendir "/r" 0,
          Event.cerr "Error reading directory: Too many levels of symbolic links"]) := rfl
  have h2 : valueOf (buildTree longNameFs "/p" 0) =
      Json.array [folderNode ⟨"/p/bad", Except.ok true⟩ 0
        (Json.array [fileNode ⟨"/p/bad/k.txt", Except.ok false⟩ 1])] := rfl
  refine ⟨⟨rfl, rfl, by decide, h, ?_⟩, rfl, rfl, by decide, ?_⟩
  · rintro ⟨nodes, events, h1, hlen⟩
    rw [h] at h1
    injection h1 with h1
    injection h1 with h1
    injection h1 with h1
    injection h1 with h1
    subst h1
    simp at hlen
  · rintro ⟨nodes, events, h1, hlen⟩
    rw [h1] at h2
    have h3 : Json.array nodes = Json.array [folderNode ⟨"/p/bad", Except.ok true⟩ 0
        (Json.array [fileNode ⟨"/p/bad/k.txt", Except.ok false⟩ 1])] := h2
    injection h3 with h3
    subst h3
    simp at hlen

/-- Every call ends, with a tree or with the exception of its own existence query; it
returns a tree whenever that query answers or the depth is beyond the bound. -/
theorem buildTree_result (fs : FileSystem) (path : String) (depth : Int) :
    ∃ result events, buildTree fs path depth = some (result, events) ∧
      ((depth > MAX_DEPTH ∨ ∃ b, fs.fs_exists path = Except.ok b) →
        ∃ tree, result = Except.ok tree) := by
  obtain ⟨⟨result, events⟩, h⟩ := Option.isSome_iff_exists.mp (buildTree_isSome fs path depth)
  refine ⟨result, events, h, ?_⟩
  intro hans
  obtain ⟨tree, ev, h2⟩ := buildTree_answers fs path depth hans
  rw [h2] at h
  injection h with h
  injection h with h
  exact ⟨tree, h.symm⟩

/-- C2. Whatever the file system, the path and the starting depth, `buildTree` ends, and
it returns a tree whenever its own existence query answers. Every node of a returned
tree, at the top level or nested in any `children` array, has a `name` that is none of
`node_modules`, `.git`, `dist`, `build`, `.next`, `coverage`, `.cache`; whether an ignored
entry is a directory plays no part. No ignored entry is ever descended into either:
every directory the run lists is the path of the call itself or the path of an entry
whose name is not in the list. -/
theorem buildTree_never_emits_ignored (fs : FileSystem) (path : String) (depth : Int) :
    ∃ result events, buildTree fs path depth = some (result, events) ∧
      ((depth > MAX_DEPTH ∨ ∃ b, fs.fs_exists path = Except.ok b) →
        ∃ tree, result = Except.ok tree) ∧
      (∀ tree, result = Except.ok tree → ∀ n, InTree n tree →
        ∃ s, n.get? "name" = some (Json.string s) ∧
          s ∉ ["node_modules", ".git", "dist", "build", ".next", "coverage", ".cache"]) ∧
      (∀ p k, Event.opendir p k ∈ events → p = path ∨ filename p ∉ ignoreList) := by
  obtain ⟨result, events, h, hans⟩ := buildTree_result fs path depth
  refine ⟨result, events, h, hans, ?_, ?_⟩
  · rintro tree rfl n hn
    obtain ⟨dir, k, e, _, _, _, _, hi, _, rfl⟩ :=
      node_origin_of_inTree fs path depth tree events h n hn
    exact ⟨filename e.path, entryNode_name _ _ _, (shouldIgnore_eq_false_iff _).mp hi⟩
  · intro p k hp
    have hok := events_ok fs _ path depth (le_refl _) _ h _ hp
    rcases hok.2 with ⟨h1, _⟩ | ⟨_, h2⟩
    · exact Or.inl h1
    · exact Or.inr ((shouldIgnore_eq_false_iff _).mp h2)

/-- C3. `buildTree(root, 0)` ends, and returns a tree whenever the existence query of the
root answers. In a returned tree every folder node whose depth is `MAX_DEPTH` has a
`children` member, and it is the empty array, whatever the directory holds on disk; and
every node has a depth between 0 and `MAX_DEPTH`. -/
theorem buildTree_cutoff_at_max_depth (fs : FileSystem) (root : String) :
    ∃ result events, buildTree fs root 0 = some (result, events) ∧
      ((∃ b, fs.fs_exists root = Except.ok b) → ∃ tree, result = Except.ok tree) ∧
      (∀ tree, result = Except.ok tree → ∀ n, InTree n tree →
        n.get? "type" = some (Json.string "folder") →
        n.get? "depth" = some (Json.number MAX_DEPTH) →
        n.get? "children" = some (Json.array [])) ∧
      (∀ tree, result = Except.ok tree → ∀ n, InTree n tree →
        ∃ k, n.get? "depth" = some (Json.number k) ∧ 0 ≤ k ∧ k ≤ MAX_DEPTH) := by
  obtain ⟨result, events, h, hans⟩ := buildTree_result fs root 0
  refine ⟨result, events, h, fun hb => hans (Or.inr hb), ?_, ?_⟩
  · rintro tree rfl n hn htype hdepth
    obtain ⟨dir, k, e, _, _, _, _, _, _, rfl⟩ :=
      node_origin_of_inTree fs root 0 tree events h n hn
    have hdir := (entryNode_folder_iff _ _ _).mp htype
    rw [entryNode_depth] at hdepth
    injection hdepth with hdepth
    injection hdepth with hdepth
    subst hdepth
    rw [entryNode_children_folder _ _ _ hdir,
      buildTree_beyond fs e.path (MAX_DEPTH + 1) (by omega)]
    rfl
  · rintro tree rfl n hn
    obtain ⟨dir, k, e, hk0, hk1, _, _, _, _, rfl⟩ :=
      node_origin_of_inTree fs root 0 tree events h n hn
    exact ⟨k, entryNode_depth _ _ _, hk0, hk1⟩

/-- C4. Whatever the file system, the path and the starting depth `d`, `buildTree(path, d)`
ends, and returns a tree whenever its own existence query answers. Every folder node of a
returned tree, at any nesting level, has a depth `k` and an array of children, and each
node of that array has depth exactly `k + 1`. -/
theorem buildTree_children_one_deeper (fs : FileSystem) (path : String) (d : Int) :
    ∃ result events, buildTree fs path d = some (result, events) ∧
      ((d > MAX_DEPTH ∨ ∃ b, fs.fs_exists path = Except.ok b) →
        ∃ tree, result = Except.ok tree) ∧
      ∀ tree, result = Except.ok tree → ∀ n, InTree n tree →
        n.get? "type" = some (Json.string "folder") →
        ∃ k cs, n.get? "depth" = some (Json.number k) ∧
          n.get? "children" = some (Json.array cs) ∧
          ∀ c ∈ cs, c.get? "depth" = some (Json.number (k + 1)) := by
  obtain ⟨result, events, h, hans⟩ := buildTree_result fs path d
  refine ⟨result, events, h, hans, ?_⟩
  rintro tree rfl n hn htype
  obtain ⟨dir, k, e, _, _, _, _, _, hem, rfl⟩ :=
    node_origin_of_inTree fs path d tree events h n hn
  have hdir := (entryNode_folder_iff _ _ _).mp htype
  rcases hem with hfile | ⟨_, sub, ev, hrec⟩
  · rw [hdir] at hfile; cases hfile
  · rcases buildTree_ok_nodes fs e.path (k + 1) sub ev hrec with rfl |
      ⟨_, _, kept, dropped, rfl, _, _⟩
    · refine ⟨k, [], entryNode_depth _ _ _, ?_, by simp⟩
      rw [entryNode_children_folder _ _ _ hdir, hrec]; rfl
    · refine ⟨k, kept.map (entryNode (buildTree fs) (k + 1)), entryNode_depth _ _ _, ?_, ?_⟩
      · rw [entryNode_children_folder _ _ _ hdir, hrec]; rfl
      · intro c hc
        obtain ⟨e2, _, rfl⟩ := List.mem_map.mp hc
        exact entryNode_depth _ _ _

/-- C7, as amended. Every run of `main` ends. When the directory argument is missing
(`argc < 2`) or `fs::exists` answers that the path given does not exist, the exit status
is 1, nothing is written to standard output, `buildTree` is not entered, and a line is
written to standard error; and the exit status is 1 in these two cases only. -/
theorem main_invocation_errors (fs : FileSystem) (escape : String → Except String String)
    (argv : List String) :
    ∃ out, main fs escape argv = some out ∧
      ((argv.length < 2 ∨ fs.fs_exists (argv.getD 1 "") = Except.ok false) →
        out.status = 1 ∧ out.stdout = [] ∧ (∀ p k, Event.call p k ∉ out.events) ∧
        stderrLines out.events ≠ []) ∧
      (out.status = 1 →
        argv.length < 2 ∨ fs.fs_exists (argv.getD 1 "") = Except.ok false) := by
  by_cases hargc : argv.length < 2
  · refine ⟨⟨1, [], [Event.cerr "Usage: ./filetree <directory>"]⟩, ?_, ?_, ?_⟩
    · unfold main; rw [if_pos hargc]
    · intro _
      refine ⟨rfl, rfl, ?_, ?_⟩
      · intro p k hmem
        simp at hmem
      · simp [stderrLines]
    · intro _
      exact Or.inl hargc
  · cases hexists : fs.fs_exists (argv.getD 1 "") with
    | error what =>
      refine ⟨⟨134, [], [Event.stat (argv.getD 1 ""), Event.abort what]⟩, ?_, ?_, ?_⟩
      · unfold main; rw [if_neg hargc, hexists]
      · rintro (h1 | h1)
        · exact absurd h1 hargc
        · cases h1
      · intro h1
        simp at h1
    | ok b =>
      cases b with
      | false =>
        refine ⟨⟨1, [], [Event.stat (argv.getD 1 ""),
          Event.cerr "Directory does not exist."]⟩, ?_, ?_, ?_⟩
        · unfold main; rw [if_neg hargc, hexists]
        · intro _
          refine ⟨rfl, rfl, ?_, ?_⟩
          · intro p k hmem
            simp at hmem
          · simp [stderrLines]
        · intro _
          exact Or.inr rfl
      | true =>
        have hno : ¬ (argv.length < 2 ∨ Except.ok true = (Except.ok false : Except String Bool)) := by
          rintro (h1 | h1)
          · exact absurd h1 hargc
          · cases h1
        obtain ⟨⟨result, events⟩, h⟩ :=
          Option.isSome_iff_exists.mp (buildTree_isSome fs (argv.getD 1 "") 0)
        cases result with
        | error what =>
          refine ⟨⟨134, [], Event.stat (argv.getD 1 "") :: events ++ [Event.abort what]⟩,
            ?_, fun hc => absurd hc hno, ?_⟩
          · unfold main; rw [if_neg hargc, hexists]; simp only [h]
          · intro h1
            simp at h1
        | ok tree =>
          cases hdump : Json.dump escape tree with
          | error what =>
            refine ⟨⟨134, [], Event.stat (argv.getD 1 "") :: events ++ [Event.abort what]⟩,
              ?_, fun hc => absurd hc hno, ?_⟩
            · unfold main; rw [if_neg hargc, hexists]; simp only [h, hdump]
            · intro h1
              simp at h1
          | ok text =>
            refine ⟨⟨0, [text], Event.stat (argv.getD 1 "") :: events⟩,
              ?_, fun hc => absurd hc hno, ?_⟩
            · unfold main; rw [if_neg hargc, hexists]; simp only [h, hdump]
            · intro h1
              simp at h1

set_option maxRecDepth 100000 in
/-- C7 as first stated fails. In `emptyFs` no path exists at all. Given a path whose base
name is longer than a name may be, the status query of `fs::exists` raises at line 57,
where nothing catches it: the process is aborted with status 134, not 1, and the line
`Directory does not exist.` is not written. -/
theorem main_aborts_when_status_query_fails :
    (∀ p, emptyFs.fs_exists p ≠ Except.ok true) ∧
    main emptyFs (fun s => Except.ok s) ["./filetree", overlongPath] =
      some ⟨134, [], [Event.stat overlongPath, Event.abort "File name too long"]⟩ ∧
    ¬ ∃ out, main emptyFs (fun s => Except.ok s) ["./filetree", overlongPath] = some out ∧
      out.status = 1 := by
  have h : main emptyFs (fun s => Except.ok s) ["./filetree", overlongPath] =
      some ⟨134, [], [Event.stat overlongPath, Event.abort "File name too long"]⟩ := rfl
  refine ⟨?_, h, ?_⟩
  · intro p hp
    unfold emptyFs at hp
    simp only at hp
    split at hp <;> cases hp
  · rintro ⟨out, h1, h2⟩
    rw [h] at h1
    injection h1 with h1
    subst h1
    simp at h2

/-- C8. For a root that exists and is not a directory, so that listing it yields no
entry (the iterator cannot be opened), `buildTree(root, 0)` returns the empty array,
and `main` exits with status 0 after writing the dump of the empty array, `[]`, once,
to standard output. -/
theorem main_root_not_a_directory (fs : FileSystem) (escape : String → Except String String)
    (prog root : String) (rest : List String)
    (hexists : fs.fs_exists root = Except.ok true)
    (hfile : (fs.directory_iterator root).entries = []) :
    (∃ events, buildTree fs root 0 = some (Except.ok (Json.array []), events)) ∧
    ∃ events, main fs escape (prog :: root :: rest) = some ⟨0, ["[]"], events⟩ := by
  obtain ⟨more, h⟩ := buildTree_listed fs root 0 hexists (by decide)
    (by rw [hfile]; intro e he; cases he)
  rw [hfile] at h
  have h2 : buildTree fs root 0 = some (Except.ok (Json.array []),
      catchError (fs.directory_iterator root).error
        ([Event.call root 0, Event.stat root, Event.opendir root 0] ++ more)) := h
  refine ⟨⟨_, h2⟩, Event.stat root :: catchError (fs.directory_iterator root).error
    ([Event.call root 0, Event.stat root, Event.opendir root 0] ++ more), ?_⟩
  have hroot : (prog :: root :: rest).getD 1 "" = root := rfl
  unfold main
  rw [if_neg (by simp), hroot, hexists]
  simp only [h2]
  rfl

/-- C8, at the scenario of the specification: the root argument is the file `/r/a.txt`. -/
theorem main_root_not_a_directory_witness :
    scenarioFs.fs_exists "/r/a.txt" = Except.ok true ∧
    (scenarioFs.directory_iterator "/r/a.txt").entries = [] ∧
    (∃ events, buildTree scenarioFs "/r/a.txt" 0 = some (Except.ok (Json.array []), events)) ∧
    ∃ events, main scenarioFs (fun s => Except.ok s) ["./filetree", "/r/a.txt"] =
      some ⟨0, ["[]"], events⟩ :=
  ⟨rfl, rfl,
    main_root_not_a_directory scenarioFs (fun s => Except.ok s) "./filetree" "/r/a.txt" []
      rfl rfl⟩

/-! ## Names, order and the scenario of the specification -/

/-- C9, as amended. For a directory `D` that exists, whose iterator raises no error and
whose non-ignored entries are all handled by the loop body without exception, and a
depth `d ≤ MAX_DEPTH`, the names of the nodes `buildTree(D, d)` returns are the base names
of the listing of `D`, in listing order, with exactly the names equal to a member of the
ignore list removed; and the paths of the nodes are the paths of the entries kept. -/
theorem buildTree_names_in_listing_order (fs : FileSystem) (D : String) (d : Int)
    (hexists : fs.fs_exists D = Except.ok true)
    (_hread : (fs.directory_iterator D).error = none)
    (hhandled : ((fs.directory_iterator D).entries.filter
      (fun e => decide (filename e.path ∉ ignoreList))).all (handled fs d) = true)
    (hmax : d ≤ MAX_DEPTH) :
    ∃ nodes events, buildTree fs D d = some (Except.ok (Json.array nodes), events) ∧
      nodes.map (fun n => n.get? "name") =
        ((((fs.directory_iterator D).entries.map (fun e => filename e.path)).filter
          (fun s => decide (s ∉ ignoreList))).map (fun s => some (Json.string s))) ∧
      nodes.map (fun n => n.get? "path") =
        (((fs.directory_iterator D).entries.filter
          (fun e => decide (filename e.path ∉ ignoreList))).map
            (fun e => some (Json.string e.path))) := by
  obtain ⟨events, h⟩ := buildTree_listed_value fs D d hexists hmax hhandled
  refine ⟨_, events, h, ?_, ?_⟩
  · rw [List.filter_map, List.map_map, List.map_map]
    apply List.map_congr_left
    intro e _
    exact entryNode_name _ _ _
  · rw [List.map_map]
    apply List.map_congr_left
    intro e _
    exact entryNode_path _ _ _

/-- C9 as amended, at the scenario of the specification: the root lists `a.txt` (a file),
`node_modules` (a folder) and `src` (a folder holding `b.txt`); the result is the node of
`a.txt` and the node of `src` with the node of `b.txt` as its only child, and only
whole, case-sensitive matches are ignored. -/
theorem buildTree_names_in_listing_order_witness :
    (∃ nodes events, buildTree scenarioFs "/r" 0 =
        some (Except.ok (Json.array nodes), events) ∧
      nodes.map (fun n => n.get? "name") =
        [some (Json.string "a.txt"), some (Json.string "src")] ∧
      nodes.map (fun n => n.get? "path") =
        [some (Json.string "/r/a.txt"), some (Json.string "/r/src")]) ∧
    valueOf (buildTree scenarioFs "/r" 0) = Json.array [
      Json.object [("depth", Json.number 0), ("name", Json.string "a.txt"),
        ("path", Json.string "/r/a.txt"), ("type", Json.string "file")],
      Json.object [("children", Json.array [
          Json.object [("depth", Json.number 1), ("name", Json.string "b.txt"),
            ("path", Json.string "/r/src/b.txt"), ("type", Json.string "file")]]),
        ("depth", Json.number 0), ("name", Json.string "src"),
        ("path", Json.string "/r/src"), ("type", Json.string "folder")]] ∧
    shouldIgnore "Dist" = false ∧ shouldIgnore "dist2" = false ∧ shouldIgnore "dist" = true :=
  ⟨buildTree_names_in_listing_order scenarioFs "/r" 0 rfl rfl rfl (by decide),
    rfl, by decide, by decide, by decide⟩

/-- C9 as first stated fails, at two inputs. The directory `/r` of `symlinkFs` is read
by the iterator without error and lists the base names `aaa.txt`, `me`, `zzz.txt`, none of
them ignored. The status query of `me` raises and ends the loop: the names of the nodes
returned at depth 0 are `aaa.txt` alone. The directory `/p` of `longNameFs` lists `bad`,
`long`, `y.txt` without error; the existence query of `long` raises in the recursive
call, and the names returned are `bad` alone. -/
theorem buildTree_names_fail_on_status_error :
    (symlinkFs.fs_exists "/r" = Except.ok true ∧
      (symlinkFs.directory_iterator "/r").error = none ∧
      (((symlinkFs.directory_iterator "/r").entries.map (fun e => filename e.path)).filter
        (fun s => decide (s ∉ ignoreList))) = ["aaa.txt", "me", "zzz.txt"] ∧
      (∃ nodes events, buildTree symlinkFs "/r" 0 =
          some (Except.ok (Json.array nodes), events) ∧
        nodes.map (fun n => n.get? "name") = [some (Json.string "aaa.txt")]) ∧
      ¬ ∃ nodes events, buildTree symlinkFs "/r" 0 =
          some (Except.ok (Json.array nodes), events) ∧
        nodes.map (fun n => n.get? "name") =
          [some (Json.string "aaa.txt"), some (Json.string "me"),
            some (Json.string "zzz.txt")]) ∧
    (longNameFs.fs_exists "/p" = Except.ok true ∧
      (longNameFs.directory_iterator "/p").error = none ∧
      (((longNameFs.directory_iterator "/p").entries.map (fun e => filename e.path)).filter
        (fun s => decide (s ∉ ignoreList))) = ["bad", "long", "y.txt"] ∧
      ¬ ∃ nodes events, buildTree longNameFs "/p" 0 =
          some (Except.ok (Json.array nodes), events) ∧
        nodes.map (fun n => n.get? "name") =
          [some (Json.string "bad"), some (Json.string "long"),
            some (Json.string "y.txt")]) := by
  have h : buildTree symlinkFs "/r" 0 =
      some (Except.ok (Json.array [fileNode ⟨"/r/aaa.txt", Except.ok false⟩ 0]),
        [Event.call "/r" 0, Event.stat "/r", Event.opendir "/r" 0,
          Event.cerr "Error reading directory: Too many levels of symbolic links"]) := rfl
  have h2 : valueOf (buildTree longNameFs "/p" 0) =
      Json.array [folderNode ⟨"/p/bad", Except.ok true⟩ 0
        (Json.array [fileNode ⟨"/p/bad/k.txt", Except.ok false⟩ 1])] := rfl
  refine ⟨⟨rfl, rfl, by decide, ⟨_, _, h, rfl⟩, ?_⟩, rfl, rfl, by decide, ?_⟩
  · rintro ⟨nodes, events, h1, hnames⟩
    rw [h] at h1
    injection h1 with h1
    injection h1 with h1
    injection h1 with h1
    injection h1 with h1
    subst h1
    simp at hnames
  · rintro ⟨nodes, events, h1, hnames⟩
    rw [h1] at h2
    have h3 : Json.array nodes = Json.array [folderNode ⟨"/p/bad", Except.ok true⟩ 0
        (Json.array [fileNode ⟨"/p/bad/k.txt", Except.ok false⟩ 1])] := h2
    injection h3 with h3
    subst h3
    simp at hnames

/-! ## Termination and the bound on the recursion -/

/-- C10. On every file system, cyclic ones included, `buildTree(root, 0)` ends, with
a budget of `MAX_DEPTH + 2` nested calls or any larger one; every listing of a directory
in the run happens in a call whose depth is between 0 and `MAX_DEPTH`, and every call
has a depth of `MAX_DEPTH + 1` at most. A call with a depth above `MAX_DEPTH` returns
the empty array, and its only event is the call itself: the file system is not
consulted. A call that lists a directory depends on the recursion through calls at
its own depth plus one only. -/
theorem buildTree_terminates_bounded (fs : FileSystem) (root : String) :
    (∃ result events, buildTree fs root 0 = some (result, events) ∧
      ((∃ b, fs.fs_exists root = Except.ok b) → ∃ tree, result = Except.ok tree) ∧
      (∀ fuel, 7 ≤ fuel → buildTreeFuel fs fuel root 0 = some (result, events)) ∧
      (∀ p k, Event.opendir p k ∈ events → 0 ≤ k ∧ k ≤ MAX_DEPTH) ∧
      (∀ p k, Event.call p k ∈ events → 0 ≤ k ∧ k ≤ MAX_DEPTH + 1)) ∧
    (∀ path depth, depth > MAX_DEPTH → ∀ fuel,
      buildTreeFuel fs (fuel + 1) path depth =
        some (Except.ok (Json.array []), [Event.call path depth]) ∧
      buildTree fs path depth = some (Except.ok (Json.array []), [Event.call path depth])) ∧
    (∀ path depth recur, depth ≤ MAX_DEPTH → fs.fs_exists path = Except.ok true →
      (∀ q, recur q (depth + 1) = buildTree fs q (depth + 1)) →
      buildTree fs path depth =
        match forEachEntry recur depth (fs.directory_iterator path).entries
            ([], [Event.call path depth, Event.stat path, Event.opendir path depth]) with
        | none => none
        | some (children, events, raised) =>
          some (Except.ok (Json.array children),
            catchError (caught raised (fs.directory_iterator path).error) events)) := by
  refine ⟨?_, ?_, ?_⟩
  · obtain ⟨result, events, h, hans⟩ := buildTree_result fs root 0
    refine ⟨result, events, h, fun hb => hans (Or.inr hb), ?_, ?_, ?_⟩
    · intro fuel hfuel
      obtain ⟨n, rfl⟩ : ∃ n, fuel = n + 1 := ⟨fuel - 1, by omega⟩
      rw [← h]
      unfold buildTree callBudget
      exact buildTreeFuel_stable fs n _ root 0 (by unfold MAX_DEPTH; omega) (le_refl _)
    · intro p k hp
      have hok := events_ok fs _ root 0 (le_refl _) _ h _ hp
      refine ⟨?_, hok.1⟩
      rcases hok.2 with ⟨_, h2⟩ | ⟨h2, _⟩ <;> omega
    · intro p k hp
      have hok := events_ok fs _ root 0 (le_refl _) _ h _ hp
      rcases hok with ⟨_, h2⟩ | ⟨h2, h3, _⟩
      · unfold MAX_DEPTH; omega
      · exact ⟨by omega, h3⟩
  · intro path depth hd fuel
    exact ⟨buildTreeFuel_beyond fs fuel path depth hd, buildTree_beyond fs path depth hd⟩
  · intro path depth recur hd hexists hrec
    rw [buildTree_unfold, if_neg (by omega), hexists, forEachEntry_congr _ _ depth hrec]

/-! ## Concrete runs -/

/-- The bound is met: on the self-linked directory a budget of six nested calls is
not enough, seven are. -/
theorem loopFs_needs_seven_calls :
    buildTreeFuel loopFs 6 "/r" 0 = none ∧ (buildTreeFuel loopFs 7 "/r" 0).isSome = true :=
  ⟨rfl, rfl⟩

/-- The cutoff on the self-linked directory: the folder six levels down is listed on
disk with one entry, yet its node, at depth `MAX_DEPTH`, has the empty array as
`children`. -/
theorem loopFs_cutoff_node :
    (loopFs.directory_iterator "/r/self/self/self/self/self/self").entries.length = 1 ∧
    ∃ node, InTree node (valueOf (buildTree loopFs "/r" 0)) ∧
      node.get? "path" = some (Json.string "/r/self/self/self/self/self/self") ∧
      node.get? "type" = some (Json.string "folder") ∧
      node.get? "depth" = some (Json.number 5) ∧
      node.get? "children" = some (Json.array []) := by
  have h0 : valueOf (buildTree loopFs "/r" 0) =
      Json.array [folderNode ⟨"/r/self", Except.ok true⟩ 0
        (Json.array [folderNode ⟨"/r/self/self", Except.ok true⟩ 1
          (Json.array [folderNode ⟨"/r/self/self/self", Except.ok true⟩ 2
            (Json.array [folderNode ⟨"/r/self/self/self/self", Except.ok true⟩ 3
              (Json.array [folderNode ⟨"/r/self/self/self/self/self", Except.ok true⟩ 4
                (Json.array [folderNode ⟨"/r/self/self/self/self/self/self", Except.ok true⟩ 5
                  (Json.array [])])])])])])] := rfl
  refine ⟨rfl, folderNode ⟨"/r/self/self/self/self/self/self", Except.ok true⟩ 5
    (Json.array []), ?_, rfl, rfl, rfl, rfl⟩
  rw [h0]
  refine InTree.nested (List.mem_singleton.mpr rfl) rfl ?_
  refine InTree.nested (List.mem_singleton.mpr rfl) rfl ?_
  refine InTree.nested (List.mem_singleton.mpr rfl) rfl ?_
  refine InTree.nested (List.mem_singleton.mpr rfl) rfl ?_
  refine InTree.nested (List.mem_singleton.mpr rfl) rfl ?_
  exact InTree.top (List.mem_singleton.mpr rfl)

/-- The read error on the concrete file system, member by member: the tree of `/p`,
and the line on `std::cerr`. -/
theorem brokenFs_tree :
    valueOf (buildTree brokenFs "/p" 0) = Json.array [
      Json.object [("depth", Json.number 0), ("name", Json.string "x.txt"),
        ("path", Json.string "/p/x.txt"), ("type", Json.string "file")],
      Json.object [("children", Json.array [
          Json.object [("depth", Json.number 1), ("name", Json.string "k.txt"),
            ("path", Json.string "/p/bad/k.txt"), ("type", Json.string "file")]]),
        ("depth", Json.number 0), ("name", Json.string "bad"),
        ("path", Json.string "/p/bad"), ("type", Json.string "folder")],
      Json.object [("depth", Json.number 0), ("name", Json.string "y.txt"),
        ("path", Json.string "/p/y.txt"), ("type", Json.string "file")]] ∧
    (buildTree brokenFs "/p" 0).map (fun r => stderrLines r.2) =
      some ["Error reading directory: Permission denied"] :=
  ⟨rfl, rfl⟩

/-- The whole run on the scenario of the specification, with the identity as string
escaping: status 0 and the document on standard output. -/
theorem scenarioFs_run :
    (main scenarioFs (fun s => Except.ok s) ["./filetree", "/r"]).map
        (fun out => (out.status, out.stdout)) =
      some (0, ["[\x7b\"depth\":0,\"name\":\"a.txt\",\"path\":\"/r/a.txt\",\"type\":\"file\"\x7d," ++
        "\x7b\"children\":[\x7b\"depth\":1,\"name\":\"b.txt\",\"path\":\"/r/src/b.txt\"," ++
        "\"type\":\"file\"\x7d],\"depth\":0,\"name\":\"src\",\"path\":\"/r/src\"," ++
        "\"type\":\"folder\"\x7d]"]) := by
  rfl

end FileTree
